import Mathlib

/-!
A shallow embedding of the `logs-hook` service (FastAPI + MongoDB) and proofs
about its claims.  The embedding covers:

* the client-context extraction helpers of `public.py`
  (`_normalize_header_value`, `_first_ip_from_xff`, `_valid_ip`, `client_ip`,
  `client_ua`) and the simpler `client_ip` of `event.py`;
* the Mongo-backed stores (`webhook_events`, `public_events`) as in-memory
  lists of records plus a fresh-id counter;
* the endpoint handlers: `hook`, `list_events`, `export_events`,
  `delete_events`, `public_track`, `list_public`, `export_public`,
  `delete_public_events`, together with the FastAPI `Query` validation that
  guards their pagination parameters.

String manipulation is done over `List Char` with structurally recursive
functions mirroring the Python string methods used by the source (`strip`,
`split`, `lower`), so that every definition evaluates inside the kernel.
-/

namespace LogsHook

/-- JSON-like values (Mongo documents, request bodies).  Arrays and objects
are encoded as inline cons-chains (`arrCons`/`objCons`) so that equality is
derivable and structurally decidable. -/
inductive Json where
  | null
  | bool (b : Bool)
  | num (n : Int)
  | str (s : String)
  | arrNil
  | arrCons (head : Json) (tail : Json)
  | objNil
  | objCons (key : String) (val : Json) (tail : Json)
deriving DecidableEq

/-- Python truthiness of a JSON value (`bool(v)`): `None`, `False`, `0`, `""`,
`[]` and `{}` are falsy, everything else truthy. -/
def Json.truthy : Json → Bool
  | .null => false
  | .bool b => b
  | .num n => n != 0
  | .str s => s ≠ ""
  | .arrNil => false
  | .arrCons _ _ => true
  | .objNil => false
  | .objCons _ _ _ => true

/-- Dictionary lookup `d.get(k)` on an object chain; `none` on a missing key
or a non-object value. -/
def Json.oget : Json → String → Option Json
  | .objCons k' v rest, k => if k' = k then some v else rest.oget k
  | _, _ => none

/-- `Optional[str]` to a stored JSON value (`None` ↦ null). -/
def Json.ofOptStr : Option String → Json
  | none => .null
  | some s => .str s

/-- A Python dict with JSON values, as an association list (Python dicts have
unique keys; all dicts handled by the service are built from JSON bodies). -/
abbrev JDict := List (String × Json)

/-- Dictionary lookup `d.get(k)`. -/
def JDict.get? : JDict → String → Option Json
  | [], _ => none
  | (k', v) :: rest, k => if k' = k then some v else JDict.get? rest k

/-- Dictionary assignment `d[k] = v`: update the existing key in place,
otherwise append (Python dict insertion order). -/
def JDict.set : JDict → String → Json → JDict
  | [], k, v => [(k, v)]
  | (k', v') :: rest, k, v =>
    if k' = k then (k, v) :: rest else (k', v') :: JDict.set rest k v

/-- `bool(d.get(k))`: the key is present with a truthy value. -/
def JDict.truthyGet (d : JDict) (k : String) : Bool :=
  match d.get? k with
  | some v => v.truthy
  | none => false

/-- Embed a dict into a JSON object value. -/
def Json.ofDict : JDict → Json
  | [] => .objNil
  | (k, v) :: rest => .objCons k v (Json.ofDict rest)

/-! ### Python-style string primitives over `List Char` -/

/-- ASCII lower-casing of one character (`str.lower` on the ASCII inputs the
service compares: `"all"`, filter strings). -/
def lowerChar (c : Char) : Char :=
  if 'A' ≤ c ∧ c ≤ 'Z' then Char.ofNat (c.toNat + 32) else c

def lowerList (l : List Char) : List Char := l.map lowerChar

/-- `str.strip(chars)` generalisation: drop characters satisfying `p` from
both ends. -/
def stripWhile (p : Char → Bool) (l : List Char) : List Char :=
  ((l.dropWhile p).reverse.dropWhile p).reverse

/-- Python `str.strip()` (whitespace). -/
def pyStrip (l : List Char) : List Char := stripWhile Char.isWhitespace l

/-- `str.strip("'\"")` as used by `_first_ip_from_xff`. -/
def stripQuotes (l : List Char) : List Char :=
  stripWhile (fun c => c = '\'' || c = '"') l

/-- Python `str.split(sep)` for a one-character separator (keeps empty
segments, `"".split(sep) == [""]`). -/
def splitCh (sep : Char) : List Char → List (List Char)
  | [] => [[]]
  | c :: rest =>
    if c = sep then [] :: splitCh sep rest
    else
      match splitCh sep rest with
      | [] => [[c]]
      | s :: ss => (c :: s) :: ss

/-- Python `str.split("::")`, the two-character separator used when parsing
IPv6 addresses (left-to-right, non-overlapping). -/
def splitColonColon : List Char → List (List Char)
  | [] => [[]]
  | ':' :: ':' :: rest => [] :: splitColonColon rest
  | c :: rest =>
    match splitColonColon rest with
    | [] => [[c]]
    | s :: ss => (c :: s) :: ss

/-- Case-insensitive substring test over character lists (the service only
ever feeds `$regex` metacharacter-free pattern strings in the claims under
study, for which Mongo's `$options: "i"` regex match is exactly
case-insensitive substring containment). -/
def containsCIList (s pat : List Char) : Bool :=
  (List.range (s.length + 1)).any fun i => (lowerList pat).isPrefixOf ((lowerList s).drop i)

def containsCI (s pat : String) : Bool := containsCIList s.toList pat.toList

/-- Decimal value of a digit list. -/
def digitsVal (l : List Char) : Nat :=
  l.foldl (fun n c => n * 10 + (c.toNat - 48)) 0

/-- Python `int(s)` on a plain decimal string: strip whitespace, optional
sign, at least one digit; `none` models `ValueError`.  (Underscore grouping,
accepted by Python, is irrelevant to the claims and not modelled.) -/
def pyToInt (s : String) : Option Int :=
  let l := pyStrip s.toList
  let (sign, digits) :=
    match l with
    | '-' :: rest => (-1, rest)
    | '+' :: rest => (1, rest)
    | rest => ((1 : Int), rest)
  if digits ≠ [] && digits.all Char.isDigit then
    some (sign * (digitsVal digits : Int))
  else
    none

/-! ### IP address validation (`ipaddress.ip_address`) -/

/-- A dotted-quad IPv4 component: 1–3 decimal digits, value ≤ 255, no leading
zero (Python ≥ 3.9.5 rejects leading zeros). -/
def isIPv4Part (p : List Char) : Bool :=
  p ≠ [] && p.length ≤ 3 && p.all Char.isDigit &&
    (p.length = 1 || p.headD '0' ≠ '0') && digitsVal p ≤ 255

/-- Syntactically valid IPv4 address. -/
def isIPv4 (l : List Char) : Bool :=
  let parts := splitCh '.' l
  parts.length = 4 && parts.all isIPv4Part

def isHexChar (c : Char) : Bool :=
  c.isDigit || ('a' ≤ c && c ≤ 'f') || ('A' ≤ c && c ≤ 'F')

/-- A 16-bit IPv6 group: 1–4 hex digits. -/
def isH16 (g : List Char) : Bool :=
  g ≠ [] && g.length ≤ 4 && g.all isHexChar

/-- Number of 16-bit units covered by a colon-separated group list, where the
last group may be an embedded IPv4 address (worth two units); `none` when any
group is malformed. -/
def unitsOfGroups : List (List Char) → Option Nat
  | [] => some 0
  | [g] => if isH16 g then some 1 else if isIPv4 g then some 2 else none
  | g :: rest => if isH16 g then (unitsOfGroups rest).map (· + 1) else none

/-- Syntactically valid IPv6 address: either eight groups with no `::`, or a
single `::` compression with at most seven explicit units.  (Zone/scope
suffixes, irrelevant to the claims, are not modelled.) -/
def isIPv6 (l : List Char) : Bool :=
  match splitColonColon l with
  | [whole] =>
    (match unitsOfGroups (splitCh ':' whole) with
     | some n => n = 8
     | none => false)
  | [left, right] =>
    let lgs := if left = [] then [] else splitCh ':' left
    let rgs := if right = [] then [] else splitCh ':' right
    lgs.all isH16 &&
      (match unitsOfGroups rgs with
       | some k => lgs.length + k ≤ 7
       | none => false)
  | _ => false

/-- `_valid_ip` from `public.py`: falsy (`None`/empty) strings are invalid,
otherwise `ipaddress.ip_address` must parse the string (IPv4 or IPv6). -/
def validIp (s : String) : Bool :=
  if s = "" then false else isIPv4 s.toList || isIPv6 s.toList

/-- `_valid_ip` applied to a Python `Optional[str]` (`_valid_ip(None)` is
`False`). -/
def validIpOpt : Option String → Bool
  | some s => validIp s
  | none => false

/-! ### Request context and the client-context extractors -/

/-- The parts of an inbound HTTP request the handlers look at.  Header values
are modelled as already-joined strings (the multi-valued-header join is
flagged implementation-defined by the spec); `peerHost` is
`request.client.host`, absent when there is no transport peer. -/
structure Request where
  xff : Option String
  xri : Option String
  userAgent : Option String
  peerHost : Option String
deriving DecidableEq

/-- `_normalize_header_value` from `public.py` restricted to
string-or-absent header values: `None` becomes `""`, strings are stripped. -/
def normalizeHeaderValue : Option String → String
  | none => ""
  | some s => String.mk (pyStrip s.toList)

/-- `_first_ip_from_xff`: first comma-separated segment that is non-empty
after stripping whitespace and surrounding quotes. -/
def firstIpFromXff (xff : String) : Option String :=
  if xff = "" then none
  else
    (splitCh ',' xff.toList).findSome? fun part =>
      let ip := stripQuotes (pyStrip part)
      if ip ≠ [] then some (String.mk ip) else none

/-- `client_ip` from `public.py`: X-Forwarded-For first segment, then
X-Real-IP, then the transport peer, each accepted only when it validates as
an IP address; otherwise `None`. -/
def clientIp (req : Request) : Option String :=
  let xffRaw := normalizeHeaderValue req.xff
  let ip1 := firstIpFromXff xffRaw
  let ip2 :=
    if validIpOpt ip1 then ip1
    else
      let xri := normalizeHeaderValue req.xri
      if validIp xri then some xri else none
  if validIpOpt ip2 then ip2
  else if validIpOpt req.peerHost then req.peerHost else none

/-- `client_ua` from `public.py`: the User-Agent header normalised
(stripped, `""` when absent). -/
def clientUa (req : Request) : String :=
  normalizeHeaderValue req.userAgent

/-- `client_ip` from `event.py`: the first X-Forwarded-For segment, stripped
but *not* validated; falls back to the transport peer when the header is
absent or empty. -/
def eventClientIp (req : Request) : Option String :=
  match req.xff with
  | some xff =>
    if xff ≠ "" then some (String.mk (pyStrip ((splitCh ',' xff.toList).headD [])))
    else req.peerHost
  | none => req.peerHost

/-! ### Data model (`db.py`) -/

/-- A document of the `webhook_events` collection.  `id` models the opaque
store-assigned Mongo id (assigned from a fresh counter). -/
structure WebhookEvent where
  id : Nat
  event_type : String
  user_id : Option String
  ip : Option String
  user_agent : Option String
  payload : Json
  created_at : Int
deriving DecidableEq

/-- A document of the `public_events` collection.  The `ip` field holds the
JSON value taken from the tracking request (`null` when no IP resolved),
matching the BSON value Mongo compares in the `(page, ip)` lookup. -/
structure PublicEvent where
  id : Nat
  page : String
  ref : Option String
  ip : Json
  user_agent : Option String
  payload : Json
  created_at : Int
deriving DecidableEq

/-- The webhook-event store: the collection plus the fresh-id counter. -/
structure EventState where
  events : List WebhookEvent
  nextId : Nat
deriving DecidableEq

/-- The visitor-event store. -/
structure PublicState where
  events : List PublicEvent
  nextId : Nat
deriving DecidableEq

/-! ### Sorting (`.sort(-created_at)`) -/

/-- Stable insertion step for descending order on a key. -/
def insertDesc (key : α → Int) (x : α) : List α → List α
  | [] => [x]
  | y :: ys => if key y ≤ key x then x :: y :: ys else y :: insertDesc key x ys

/-- Stable descending sort on a key, modelling `.sort(-created_at)` under the
stable-sort assumption the spec makes. -/
def sortDesc (key : α → Int) : List α → List α
  | [] => []
  | x :: xs => insertDesc key x (sortDesc key xs)

/-! ### Filters (`Filter Builder`) -/

/-- Mongo `$regex` with `$options: "i"` applied to an optional string field:
a missing (`null`) field never matches. -/
def regexMatchOptStr (o : Option String) (q : String) : Bool :=
  match o with
  | some s => containsCI s q
  | none => false

/-- Mongo `$regex` applied to a JSON field value: only string values (or
string elements of an array value) can match; the object-valued `payload`
fields of this service therefore never match. -/
def regexMatchJson : Json → String → Bool
  | .str s, q => containsCI s q
  | .arrCons h t, q => regexMatchJson h q || regexMatchJson t q
  | _, _ => false

/-- Query parameters of `GET /events`, `GET /events/export` and
`DELETE /events` (`None` when absent). -/
structure EventFilter where
  event_type : Option String
  user_id : Option String
  from_ts : Option Int
  to_ts : Option Int
  q : Option String
deriving DecidableEq

/-- A Python-falsy optional string parameter (absent or empty), for which the
handlers add no condition (`if event_type:` …). -/
def optStrFalsy : Option String → Bool
  | none => true
  | some s => s = ""

/-- The `$and` of the conditions built by `list_events` / `export_events` /
`delete_events`: equality on `event_type`/`user_id`, an inclusive
`created_at` range, and a case-insensitive `$or` regex over
`payload`/`user_agent`. -/
def matchesEventFilter (f : EventFilter) (e : WebhookEvent) : Bool :=
  (match f.event_type with
   | some t => if t = "" then true else e.event_type = t
   | none => true) &&
  (match f.user_id with
   | some u => if u = "" then true else e.user_id = some u
   | none => true) &&
  (match f.from_ts with
   | some a => a ≤ e.created_at
   | none => true) &&
  (match f.to_ts with
   | some b => e.created_at ≤ b
   | none => true) &&
  (match f.q with
   | some s =>
     if s = "" then true
     else regexMatchJson e.payload s || regexMatchOptStr e.user_agent s
   | none => true)

/-- `conditions == []` in the `/events` handlers: every parameter absent or
falsy, in which case `delete_events` takes the `delete_all` branch. -/
def eventNoConditions (f : EventFilter) : Bool :=
  optStrFalsy f.event_type && optStrFalsy f.user_id &&
    f.from_ts.isNone && f.to_ts.isNone && optStrFalsy f.q

/-- The filter of `GET /public` / `GET /public/export`: `page` is a
case-insensitive substring (`$regex`) condition, `q` an `$or` regex over
`payload`/`user_agent`/`ref`. -/
def matchesPublicFilter (page q : Option String) (e : PublicEvent) : Bool :=
  (match page with
   | some p => if p = "" then true else containsCI e.page p
   | none => true) &&
  (match q with
   | some s =>
     if s = "" then true
     else regexMatchJson e.payload s || regexMatchOptStr e.user_agent s ||
       regexMatchOptStr e.ref s
   | none => true)

/-- Query parameters of `DELETE /public`. -/
structure PublicDeleteFilter where
  page : Option String
  ip : Option String
  from_ts : Option Int
  to_ts : Option Int
deriving DecidableEq

/-- The `$and` built by `delete_public_events`: *equality* on `page` and
`ip`, plus the inclusive `created_at` range. -/
def matchesPublicDeleteFilter (f : PublicDeleteFilter) (e : PublicEvent) : Bool :=
  (match f.page with
   | some p => if p = "" then true else e.page = p
   | none => true) &&
  (match f.ip with
   | some i => if i = "" then true else e.ip = Json.str i
   | none => true) &&
  (match f.from_ts with
   | some a => a ≤ e.created_at
   | none => true) &&
  (match f.to_ts with
   | some b => e.created_at ≤ b
   | none => true)

/-- `conditions == []` in `delete_public_events`. -/
def publicNoConditions (f : PublicDeleteFilter) : Bool :=
  optStrFalsy f.page && optStrFalsy f.ip && f.from_ts.isNone && f.to_ts.isNone

/-! ### Webhook endpoints (`event.py`) -/

/-- Response of `POST /hook`. -/
structure HookResp where
  ok : Bool
  stored : Bool
  id : Nat
deriving DecidableEq

/-- `POST /hook`: extract context with the *event.py* `client_ip` (raw, no
validation) and the raw User-Agent header, build
`payload = evt.model_dump()` and insert a fresh document. -/
def hook (st : EventState) (req : Request) (etype : String)
    (userId : Option String) (data : JDict) (now : Int) :
    HookResp × EventState :=
  let ip := eventClientIp req
  let ua := req.userAgent
  let payload : Json :=
    .objCons "type" (.str etype)
      (.objCons "user_id" (.ofOptStr userId)
        (.objCons "data" (.ofDict data) .objNil))
  let doc : WebhookEvent :=
    ⟨st.nextId, etype, userId, ip, ua, payload, now⟩
  (⟨true, true, st.nextId⟩, ⟨st.events ++ [doc], st.nextId + 1⟩)

/-- An HTTP outcome: a successful JSON body or an HTTPException status. -/
inductive Outcome (ε α : Type) where
  | error (e : ε)
  | ok (a : α)
deriving DecidableEq

/-- FastAPI `Query(default=0, ge=0)` for `offset`:
an out-of-range supplied value is rejected with a 422 validation error. -/
def validateOffsetParam (offset : Option Int) : Outcome String Nat :=
  let o := offset.getD 0
  if o < 0 then .error "422: offset must be >= 0" else .ok o.toNat

/-- FastAPI `Query(default=50, ge=1, le=MAX_LIMIT)` for the `/events`
`limit`: an out-of-range supplied value is rejected with a 422 validation
error, not clamped. -/
def validateEventLimitParam (limit : Option Int) : Outcome String Nat :=
  let l := limit.getD 50
  if l < 1 then .error "422: limit must be >= 1"
  else if l > 200 then .error "422: limit must be <= 200"
  else .ok l.toNat

/-- Response envelope of `GET /events` (items keep the full record; the
handler's dict projection renames `event_type` to `type` and stringifies the
id without dropping information). -/
structure EventListResp where
  total : Nat
  count : Nat
  offset : Nat
  limit : Nat
  items : List WebhookEvent
deriving DecidableEq

/-- `GET /events` after parameter validation: count the filtered set, then
sort newest-first, skip `offset`, take `limit`. -/
def listEventsCore (st : EventState) (f : EventFilter) (offset limit : Nat) :
    EventListResp :=
  let filtered := st.events.filter (matchesEventFilter f)
  let total := filtered.length
  let items := ((sortDesc (·.created_at) filtered).drop offset).take limit
  ⟨total, items.length, offset, limit, items⟩

/-- `GET /events/export` (fmt=json): the full filtered set, newest-first
(same record projection as the list endpoint). -/
def exportEventsCore (st : EventState) (f : EventFilter) : List WebhookEvent :=
  sortDesc (·.created_at) (st.events.filter (matchesEventFilter f))

/-- Response of a bulk delete. -/
structure DeleteResp where
  ok : Bool
  deleted : Nat
deriving DecidableEq

/-- `DELETE /events`: refuse with HTTP 400 unless `confirm`; with no
conditions run `delete_all`, otherwise delete the filtered subset, reporting
the affected count. -/
def deleteEventsCore (st : EventState) (f : EventFilter) (confirm : Bool) :
    Outcome Nat DeleteResp × EventState :=
  if !confirm then (.error 400, st)
  else if eventNoConditions f then
    (.ok ⟨true, st.events.length⟩, ⟨[], st.nextId⟩)
  else
    let keep := st.events.filter fun e => !matchesEventFilter f e
    (.ok ⟨true, st.events.countP (matchesEventFilter f ·)⟩, ⟨keep, st.nextId⟩)

/-! ### Visitor endpoints (`public.py`) -/

/-- `payload_data` as built by `public_track`: start from `visitor_info`,
fill in the server IP when the caller's `ip` is absent or falsy, then always
overwrite `user_agent` from the headers. -/
def payloadDataOf (req : Request) (vi : JDict) : JDict :=
  let pd := if vi.truthyGet "ip" then vi else vi.set "ip" (.ofOptStr (clientIp req))
  pd.set "user_agent" (.str (clientUa req))

/-- `final_ip = payload_data.get("ip")`: the value used both as the upsert
lookup key and in the stored record (`.null` is unreachable — the key is
always present — but keeps the lookup total). -/
def finalIpOf (req : Request) (vi : JDict) : Json :=
  ((payloadDataOf req vi).get? "ip").getD .null

/-- The stored `payload` document `{path, ref, data}`. -/
def trackPayload (req : Request) (vi : JDict) (path : String)
    (ref : Option String) : Json :=
  .objCons "path" (.str path)
    (.objCons "ref" (.ofOptStr ref)
      (.objCons "data" (.ofDict (payloadDataOf req vi)) .objNil))

/-- `(page, ip)` key match, the `find_one` predicate of `public_track`. -/
def keyMatch (path : String) (k : Json) (e : PublicEvent) : Bool :=
  e.page = path && e.ip = k

/-- `PublicEvent.find_one(page == path, ip == k)`: first match in natural
order. -/
def findOnePublic (l : List PublicEvent) (path : String) (k : Json) :
    Option PublicEvent :=
  l.find? (keyMatch path k)

/-- Response of `POST /public`. -/
structure TrackResp where
  id : Nat
  path : String
  visitor_info : JDict
  action : String
  ip_source : String
deriving DecidableEq

/-- The fresh document inserted by the create branch of `public_track`. -/
def newPublicDoc (st : PublicState) (req : Request) (path : String)
    (vi : JDict) (ref : Option String) (now : Int) : PublicEvent :=
  ⟨st.nextId, path, ref, finalIpOf req vi, some (clientUa req),
   trackPayload req vi path ref, now⟩

/-- The in-place overwrite performed by the update branch of `public_track`:
`ref`, `user_agent`, `payload` and `created_at` are replaced, `id`, `page`
and `ip` are kept. -/
def updatedPublicDoc (e : PublicEvent) (req : Request) (vi : JDict)
    (path : String) (ref : Option String) (now : Int) : PublicEvent :=
  { e with ref := ref, user_agent := some (clientUa req),
           payload := trackPayload req vi path ref, created_at := now }

/-- `POST /public`: build `payload_data`/`payload`, look up the existing
record by `(page, final_ip)`; update `ref`/`user_agent`/`payload`/`created_at`
in place when found (`.save()` persists by document id), insert a fresh
record otherwise. -/
def publicTrack (st : PublicState) (req : Request) (path : String)
    (vi : JDict) (ref : Option String) (now : Int) :
    TrackResp × PublicState :=
  let payloadData := payloadDataOf req vi
  let finalIp := finalIpOf req vi
  let ipSource := if vi.truthyGet "ip" then "visitor_info" else "server"
  match findOnePublic st.events path finalIp with
  | some existing =>
    let updated := updatedPublicDoc existing req vi path ref now
    (⟨existing.id, path, payloadData, "updated", ipSource⟩,
     { st with events := st.events.map fun e => if e.id = existing.id then updated else e })
  | none =>
    (⟨st.nextId, path, payloadData, "created", ipSource⟩,
     ⟨st.events ++ [newPublicDoc st req path vi ref now], st.nextId + 1⟩)

/-- One `POST /public` call: request context, `visitor_info`, `ref`,
timestamp. -/
structure TrackCall where
  req : Request
  vi : JDict
  ref : Option String
  now : Int
deriving DecidableEq

/-- A sequence of `POST /public` calls against the same path. -/
def trackMany (st : PublicState) (path : String) :
    List TrackCall → List TrackResp × PublicState
  | [] => ([], st)
  | c :: cs =>
    let r := publicTrack st c.req path c.vi c.ref c.now
    let rest := trackMany r.2 path cs
    (r.1 :: rest.1, rest.2)

/-- Store invariant for the upsert argument: `e` is the unique record with
key `(path, k)`, its id is unique, and all ids are fresh w.r.t. the
counter. -/
def OneRecAt (st : PublicState) (path : String) (k : Json) (e : PublicEvent) : Prop :=
  ∃ l1 l2, st.events = l1 ++ e :: l2 ∧
    (∀ x ∈ l1 ++ l2, keyMatch path k x = false ∧ x.id ≠ e.id) ∧
    (∀ x ∈ st.events, x.id < st.nextId)

/-- Response envelope of `GET /public` (items keep the selected records; the
include_payload / slim dict projections are factored out below and are 1:1
with the selected records, so `count = len(items)` either way). -/
structure PublicListResp where
  total : Nat
  count : Nat
  offset : Nat
  limit : Nat
  items : List PublicEvent
deriving DecidableEq

/-- `GET /public`: filter, count, then either the `"all"` sentinel branch
(every record, the true total reported as the effective limit, offset reset
to 0) or the clamped-integer branch
(`max(1, min(MAX_LIMIT, int(limit)))`, falling back to 50 when `int()`
fails). -/
def listPublicCore (st : PublicState) (page q : Option String)
    (offset : Nat) (limit : Option String) : PublicListResp :=
  let filtered := st.events.filter (matchesPublicFilter page q)
  let total := filtered.length
  let sorted := sortDesc (·.created_at) filtered
  let limitS := limit.getD "50"
  if String.mk (lowerList limitS.toList) = "all" then
    ⟨total, sorted.length, 0, total, sorted⟩
  else
    let limInt : Nat :=
      match pyToInt limitS with
      | some n => (max 1 (min 200 n)).toNat
      | none => 50
    let items := (sorted.drop offset).take limInt
    ⟨total, items.length, offset, limInt, items⟩

/-- `visitor_info` as shaped by `GET /public` (include_payload=true):
`(d.payload or {}).get("data", {})`. -/
def listVisitorInfo (p : Json) : Json :=
  (p.oget "data").getD .objNil

/-- `visitor_info` as shaped by `GET /public/export` (include_payload=true,
fmt=json): `((d.payload or {}).get("data", {}) or {}).get("meta", {})`.
(A truthy non-dict `data` value would raise in Python — unreachable for
records written by `public_track`, whose `data` is always a dict.) -/
def exportVisitorInfo (p : Json) : Json :=
  (((p.oget "data").getD .objNil).oget "meta").getD .objNil

/-- The include_payload item shape of `GET /public`. -/
structure PublicItemFull where
  id : Nat
  path : String
  ip : Json
  user_agent : Option String
  ref : Option String
  visitor_info : Json
  created_at : Int
deriving DecidableEq

/-- Item shaping of `GET /public` with include_payload=true. -/
def publicListItem (d : PublicEvent) : PublicItemFull :=
  ⟨d.id, d.page, d.ip, d.user_agent, d.ref, listVisitorInfo d.payload, d.created_at⟩

/-- Item shaping of `GET /public/export` with include_payload=true and
fmt=json. -/
def publicExportItem (d : PublicEvent) : PublicItemFull :=
  ⟨d.id, d.page, d.ip, d.user_agent, d.ref, exportVisitorInfo d.payload, d.created_at⟩

/-- `GET /public/export`: the full filtered set, newest-first. -/
def exportPublicCore (st : PublicState) (page q : Option String) :
    List PublicEvent :=
  sortDesc (·.created_at) (st.events.filter (matchesPublicFilter page q))

/-- `DELETE /public`: same confirm/delete-all/filtered-delete shape as
`DELETE /events`. -/
def deletePublicCore (st : PublicState) (f : PublicDeleteFilter)
    (confirm : Bool) : Outcome Nat DeleteResp × PublicState :=
  if !confirm then (.error 400, st)
  else if publicNoConditions f then
    (.ok ⟨true, st.events.length⟩, ⟨[], st.nextId⟩)
  else
    let keep := st.events.filter fun e => !matchesPublicDeleteFilter f e
    (.ok ⟨true, st.events.countP (matchesPublicDeleteFilter f ·)⟩, ⟨keep, st.nextId⟩)

/-! ### Sample inputs used to instantiate the claim theorems -/

def reqA : Request := ⟨some "1.2.3.4", none, some "Mozilla", none⟩

def reqB : Request := ⟨some "1.2.3.4", none, some "Mozilla-2", none⟩

def req9 : Request := ⟨some "9.9.9.9", none, none, none⟩

def callA : TrackCall := ⟨reqA, [("city", .str "Lahore")], none, 5⟩

def callB : TrackCall := ⟨reqB, [("city", .str "Lahore")], some "ref2", 6⟩

def estA : EventState :=
  ⟨[⟨0, "log", some "u1", some "1.2.3.4", some "UA", .objNil, 10⟩], 1⟩

def pstA : PublicState :=
  ⟨[⟨0, "/a", none, .null, some "", .objNil, 10⟩,
    ⟨1, "/b", none, .str "2.2.2.2", some "", .objNil, 20⟩], 2⟩

/-! ### Helper lemmas -/

theorem length_insertDesc (key : α → Int) (x : α) (l : List α) :
    (insertDesc key x l).length = l.length + 1 := by
  induction l with
  | nil => rfl
  | cons y ys ih =>
    simp only [insertDesc]
    split
    · simp
    · simp [ih]

theorem length_sortDesc (key : α → Int) (l : List α) :
    (sortDesc key l).length = l.length := by
  induction l with
  | nil => rfl
  | cons x xs ih => simp [sortDesc, length_insertDesc, ih]

theorem perm_insertDesc (key : α → Int) (x : α) (l : List α) :
    List.Perm (insertDesc key x l) (x :: l) := by
  induction l with
  | nil => exact List.Perm.refl _
  | cons y ys ih =>
    simp only [insertDesc]
    split
    · exact List.Perm.refl _
    · exact (ih.cons y).trans (List.Perm.swap x y ys)

theorem perm_sortDesc (key : α → Int) (l : List α) :
    List.Perm (sortDesc key l) l := by
  induction l with
  | nil => exact List.Perm.refl _
  | cons x xs ih =>
    exact (perm_insertDesc key x (sortDesc key xs)).trans (ih.cons x)

theorem validIpOpt_all {o : Option String} (h : validIpOpt o = true) :
    o.all validIp = true := by
  cases o with
  | none => rfl
  | some s => exact h

/-- `find?` over a list whose only satisfying element is a known middle
element. -/
theorem find?_middle {α} (p : α → Bool) (l1 l2 : List α) (e : α)
    (h1 : ∀ x ∈ l1, p x = false) (he : p e = true) :
    (l1 ++ e :: l2).find? p = some e := by
  induction l1 with
  | nil => simp [List.find?_cons, he]
  | cons a l ih =>
    have ha := h1 a (by simp)
    simp only [List.cons_append, List.find?_cons, ha]
    exact ih fun x hx => h1 x (by simp [hx])

theorem keyMatch_iff {path : String} {k : Json} {e : PublicEvent} :
    keyMatch path k e = true ↔ e.page = path ∧ e.ip = k := by
  simp [keyMatch]

theorem JDict.get?_set_self (d : JDict) (k : String) (v : Json) :
    (d.set k v).get? k = some v := by
  induction d with
  | nil => simp [JDict.set, JDict.get?]
  | cons p rest ih =>
    by_cases h : p.1 = k
    · simp [JDict.set, JDict.get?, h]
    · simp [JDict.set, JDict.get?, h, ih]

theorem JDict.get?_set_ne (d : JDict) (k' k : String) (v : Json)
    (h : k' ≠ k) : (d.set k' v).get? k = d.get? k := by
  induction d with
  | nil => simp [JDict.set, JDict.get?, h]
  | cons p rest ih =>
    by_cases hp : p.1 = k'
    · simp [JDict.set, JDict.get?, hp, h]
    · simp only [JDict.set, JDict.get?, hp, if_neg]
      by_cases hk : p.1 = k
      · simp [hk]
      · simp [hk, ih]

/-- The resolved tracked IP: the caller's `visitor_info["ip"]` when truthy,
the server-derived IP otherwise. -/
theorem finalIpOf_eq (req : Request) (vi : JDict) :
    finalIpOf req vi =
      if vi.truthyGet "ip" then (vi.get? "ip").getD .null
      else .ofOptStr (clientIp req) := by
  unfold finalIpOf payloadDataOf
  have hne : ("user_agent" : String) ≠ "ip" := by decide
  split
  · rw [JDict.get?_set_ne _ _ _ _ hne]
  · rw [JDict.get?_set_ne _ _ _ _ hne, JDict.get?_set_self]
    rfl

theorem eventNoConditions_matches {f : EventFilter}
    (h : eventNoConditions f = true) (e : WebhookEvent) :
    matchesEventFilter f e = true := by
  unfold eventNoConditions at h
  simp only [Bool.and_eq_true] at h
  obtain ⟨⟨⟨⟨h1, h2⟩, h3⟩, h4⟩, h5⟩ := h
  unfold matchesEventFilter
  cases hf : f.event_type <;> cases hg : f.user_id <;> cases hq : f.q <;>
    cases ht : f.from_ts <;> cases hs : f.to_ts <;>
    simp_all [optStrFalsy, Option.isNone]

theorem publicNoConditions_matches {f : PublicDeleteFilter}
    (h : publicNoConditions f = true) (e : PublicEvent) :
    matchesPublicDeleteFilter f e = true := by
  unfold publicNoConditions at h
  simp only [Bool.and_eq_true] at h
  obtain ⟨⟨⟨h1, h2⟩, h3⟩, h4⟩ := h
  unfold matchesPublicDeleteFilter
  cases hf : f.page <;> cases hg : f.ip <;>
    cases ht : f.from_ts <;> cases hs : f.to_ts <;>
    simp_all [optStrFalsy, Option.isNone]

theorem map_id_of_eq {α} (l : List α) (f : α → α) (h : ∀ x ∈ l, f x = x) :
    l.map f = l := by
  induction l with
  | nil => rfl
  | cons a t ih => simp [h a (by simp), ih fun x hx => h x (by simp [hx])]

theorem OneRecAt.mem_events {st : PublicState} {path : String} {k : Json}
    {e : PublicEvent} (h : OneRecAt st path k e) : e ∈ st.events := by
  obtain ⟨l1, l2, hev, -, -⟩ := h
  rw [hev]
  simp

theorem OneRecAt.findOne {st : PublicState} {path : String} {k : Json}
    {e : PublicEvent} (h : OneRecAt st path k e)
    (hkm : keyMatch path k e = true) :
    findOnePublic st.events path k = some e := by
  obtain ⟨l1, l2, hev, hrest, -⟩ := h
  rw [hev]
  exact find?_middle _ l1 l2 e
    (fun x hx => (hrest x (List.mem_append_left _ hx)).1) hkm

theorem OneRecAt.filter_one {st : PublicState} {path : String} {k : Json}
    {e : PublicEvent} (h : OneRecAt st path k e)
    (hkm : keyMatch path k e = true) :
    (st.events.filter (keyMatch path k)).length = 1 := by
  obtain ⟨l1, l2, hev, hrest, -⟩ := h
  have h1 : l1.filter (keyMatch path k) = [] :=
    List.filter_eq_nil_iff.mpr fun x hx => by
      simp [(hrest x (List.mem_append_left _ hx)).1]
  have h2 : l2.filter (keyMatch path k) = [] :=
    List.filter_eq_nil_iff.mpr fun x hx => by
      simp [(hrest x (List.mem_append_right _ hx)).1]
  rw [hev, List.filter_append, List.filter_cons, h1, h2]
  simp [hkm]

theorem publicTrack_creates (st : PublicState) (req : Request) (path : String)
    (vi : JDict) (ref : Option String) (now : Int)
    (hnew : findOnePublic st.events path (finalIpOf req vi) = none) :
    publicTrack st req path vi ref now =
      (⟨st.nextId, path, payloadDataOf req vi, "created",
        if vi.truthyGet "ip" then "visitor_info" else "server"⟩,
       ⟨st.events ++ [newPublicDoc st req path vi ref now], st.nextId + 1⟩) := by
  simp only [publicTrack]
  rw [hnew]

theorem publicTrack_updates (st : PublicState) (req : Request) (path : String)
    (vi : JDict) (ref : Option String) (now : Int) (e : PublicEvent)
    (hfind : findOnePublic st.events path (finalIpOf req vi) = some e) :
    publicTrack st req path vi ref now =
      (⟨e.id, path, payloadDataOf req vi, "updated",
        if vi.truthyGet "ip" then "visitor_info" else "server"⟩,
       ⟨st.events.map fun x =>
          if x.id = e.id then updatedPublicDoc e req vi path ref now else x,
        st.nextId⟩) := by
  simp only [publicTrack]
  rw [hfind]

theorem publicTrack_step (st : PublicState) (req : Request) (path : String)
    (vi : JDict) (ref : Option String) (now : Int) (k : Json) (e : PublicEvent)
    (hk : finalIpOf req vi = k) (hkm : keyMatch path k e = true)
    (hinv : OneRecAt st path k e) :
    (publicTrack st req path vi ref now).1.action = "updated" ∧
    (publicTrack st req path vi ref now).1.id = e.id ∧
    (publicTrack st req path vi ref now).2.events.length = st.events.length ∧
    OneRecAt (publicTrack st req path vi ref now).2 path k
      (updatedPublicDoc e req vi path ref now) := by
  have hfind : findOnePublic st.events path (finalIpOf req vi) = some e := by
    rw [hk]
    exact hinv.findOne hkm
  rw [publicTrack_updates st req path vi ref now e hfind]
  obtain ⟨l1, l2, hev, hrest, hfresh⟩ := hinv
  have hmap : (st.events.map fun x =>
      if x.id = e.id then updatedPublicDoc e req vi path ref now else x) =
      l1 ++ updatedPublicDoc e req vi path ref now :: l2 := by
    rw [hev, List.map_append, List.map_cons]
    rw [map_id_of_eq l1 _ fun x hx =>
      if_neg (hrest x (List.mem_append_left _ hx)).2]
    rw [map_id_of_eq l2 _ fun x hx =>
      if_neg (hrest x (List.mem_append_right _ hx)).2]
    simp
  refine ⟨rfl, rfl, ?_, ?_⟩
  · simp only [hmap, hev]
    simp
  · refine ⟨l1, l2, hmap, fun x hx => ⟨(hrest x hx).1, (hrest x hx).2⟩, ?_⟩
    intro x hx
    rw [hmap] at hx
    have hid : (updatedPublicDoc e req vi path ref now).id = e.id := rfl
    rcases List.mem_append.mp hx with hx1 | hx2
    · exact hfresh x (by rw [hev]; exact List.mem_append_left _ hx1)
    · rcases List.mem_cons.mp hx2 with hx3 | hx4
      · rw [hx3, hid]
        exact hfresh e (by rw [hev]; simp)
      · exact hfresh x (by rw [hev]; exact List.mem_append_right _ (List.mem_cons_of_mem _ hx4))

theorem trackMany_steps (path : String) (k : Json) (calls : List TrackCall) :
    ∀ (st : PublicState) (e : PublicEvent),
      (∀ c ∈ calls, finalIpOf c.req c.vi = k) →
      keyMatch path k e = true →
      OneRecAt st path k e →
      (∀ r ∈ (trackMany st path calls).1, r.action = "updated" ∧ r.id = e.id) ∧
      (trackMany st path calls).2.events.length = st.events.length ∧
      ∃ e', keyMatch path k e' = true ∧ e'.id = e.id ∧
        OneRecAt (trackMany st path calls).2 path k e' ∧
        calls.getLast?.elim (e' = e) (fun c =>
          e'.ref = c.ref ∧ e'.user_agent = some (clientUa c.req) ∧
          e'.payload = trackPayload c.req c.vi path c.ref ∧
          e'.created_at = c.now) := by
  induction calls with
  | nil =>
    intro st e hkeys hkm hinv
    exact ⟨by simp [trackMany], rfl, e, hkm, rfl, hinv, rfl⟩
  | cons c cs ih =>
    intro st e hkeys hkm hinv
    obtain ⟨ha, hid, hlen, hinv'⟩ :=
      publicTrack_step st c.req path c.vi c.ref c.now k e
        (hkeys c (by simp)) hkm hinv
    have hkmu : keyMatch path k (updatedPublicDoc e c.req c.vi path c.ref c.now) = true := hkm
    obtain ⟨hall, hlen2, e', hkm', hid', hinv'', hlast⟩ :=
      ih (publicTrack st c.req path c.vi c.ref c.now).2
        (updatedPublicDoc e c.req c.vi path c.ref c.now)
        (fun c' hc' => hkeys c' (by simp [hc'])) hkmu hinv'
    refine ⟨?_, ?_, e', hkm', hid', hinv'', ?_⟩
    · intro r hr
      simp only [trackMany, List.mem_cons] at hr
      rcases hr with hr1 | hr2
      · rw [hr1]
        exact ⟨ha, hid⟩
      · exact hall r hr2
    · simp only [trackMany]
      rw [hlen2, hlen]
    · cases cs with
      | nil =>
        have he' : e' = updatedPublicDoc e c.req c.vi path c.ref c.now := hlast
        simp only [List.getLast?_singleton, Option.elim_some, he']
        exact ⟨rfl, rfl, rfl, rfl⟩
      | cons c2 cs2 =>
        rw [List.getLast?_cons_cons]
        exact hlast

/-! ### Claim theorems -/

/-- C1: For every valid `(page, ip)` pair, repeated `POST /public` calls with
the same pair never produce more than one stored `PublicEvent`: the first
call reports `"created"`, every subsequent call reports `"updated"` with the
same id, and the final state holds exactly one record for the key, carrying
the last call's `ref`/`user_agent`/`payload`/`created_at` (overwritten in
place — one net insertion total). -/
theorem upsert_unique_per_key (st : PublicState) (path : String)
    (calls : List TrackCall) (k : Json)
    (hne : calls ≠ [])
    (hkeys : ∀ c ∈ calls, finalIpOf c.req c.vi = k)
    (hfresh : ∀ x ∈ st.events, x.id < st.nextId)
    (hnew : findOnePublic st.events path k = none) :
    ((trackMany st path calls).1.head?.map (·.action)) = some "created" ∧
    (∀ r ∈ (trackMany st path calls).1.tail, r.action = "updated") ∧
    (∀ r ∈ (trackMany st path calls).1, r.id = st.nextId) ∧
    ((trackMany st path calls).2.events.filter (keyMatch path k)).length = 1 ∧
    (trackMany st path calls).2.events.length = st.events.length + 1 ∧
    (calls.getLast?.elim True fun c =>
      ∃ e ∈ (trackMany st path calls).2.events,
        keyMatch path k e = true ∧ e.id = st.nextId ∧ e.ref = c.ref ∧
        e.user_agent = some (clientUa c.req) ∧
        e.payload = trackPayload c.req c.vi path c.ref ∧
        e.created_at = c.now) := by
  cases calls with
  | nil => exact absurd rfl hne
  | cons c cs =>
    have hkc : finalIpOf c.req c.vi = k := hkeys c (by simp)
    have hnew' : findOnePublic st.events path (finalIpOf c.req c.vi) = none := by
      rw [hkc]
      exact hnew
    have hcr := publicTrack_creates st c.req path c.vi c.ref c.now hnew'
    have hkmd : keyMatch path k (newPublicDoc st c.req path c.vi c.ref c.now) = true := by
      rw [keyMatch_iff]
      exact ⟨rfl, hkc⟩
    have hinv1 : OneRecAt ⟨st.events ++ [newPublicDoc st c.req path c.vi c.ref c.now], st.nextId + 1⟩
        path k (newPublicDoc st c.req path c.vi c.ref c.now) := by
      refine ⟨st.events, [], by simp, ?_, ?_⟩
      · intro x hx
        simp only [List.append_nil] at hx
        refine ⟨?_, ?_⟩
        · have hnx := List.find?_eq_none.mp hnew x hx
          simpa using hnx
        · exact Nat.ne_of_lt (hfresh x hx)
      · intro x hx
        simp only [List.mem_append, List.mem_singleton] at hx
        rcases hx with hx1 | hx2
        · exact Nat.lt_succ_of_lt (hfresh x hx1)
        · rw [hx2]
          exact Nat.lt_succ_self _
    obtain ⟨hall, hlen2, e', hkm', hid', hinv'', hlast⟩ :=
      trackMany_steps path k cs
        ⟨st.events ++ [newPublicDoc st c.req path c.vi c.ref c.now], st.nextId + 1⟩
        (newPublicDoc st c.req path c.vi c.ref c.now)
        (fun c' hc' => hkeys c' (by simp [hc'])) hkmd hinv1
    have hid'' : e'.id = st.nextId := hid'
    simp only [trackMany]
    rw [hcr]
    refine ⟨rfl, ?_, ?_, ?_, ?_, ?_⟩
    · intro r hr
      exact (hall r hr).1
    · intro r hr
      simp only [List.mem_cons] at hr
      rcases hr with hr1 | hr2
      · rw [hr1]
      · exact (hall r hr2).2
    · exact hinv''.filter_one hkm'
    · rw [hlen2]
      simp
    · have hmem := hinv''.mem_events
      cases cs with
      | nil =>
        have he' : e' = newPublicDoc st c.req path c.vi c.ref c.now := hlast
        simp only [List.getLast?_singleton, Option.elim_some]
        exact ⟨e', hmem, hkm', hid'', by rw [he']; rfl, by rw [he']; rfl,
          by rw [he']; rfl, by rw [he']; rfl⟩
      | cons c2 cs2 =>
        rw [List.getLast?_cons_cons]
        cases hg : (c2 :: cs2).getLast? with
        | none => simp at hg
        | some cl =>
          rw [hg] at hlast
          simp only [Option.elim_some] at hlast ⊢
          exact ⟨e', hmem, hkm', hid'', hlast.1, hlast.2.1, hlast.2.2.1, hlast.2.2.2⟩

theorem ite_validIp_all (o p : Option String) :
    (if validIpOpt o then o
     else if validIpOpt p then p else none).all validIp = true := by
  by_cases h : validIpOpt o
  · simp only [if_pos h]
    exact validIpOpt_all h
  · simp only [if_neg h]
    by_cases h2 : validIpOpt p
    · simp only [if_pos h2]
      exact validIpOpt_all h2
    · simp only [if_neg h2]
      rfl

/-- Witness for `upsert_unique_per_key`: tracking `/shen` twice from IP
1.2.3.4 creates once, then updates the same record in place. -/
theorem upsert_unique_per_key_witness :
    (((trackMany ⟨[], 0⟩ "/shen" [callA, callB]).1.head?.map (·.action)) = some "created") ∧
    (∀ r ∈ (trackMany ⟨[], 0⟩ "/shen" [callA, callB]).1.tail, r.action = "updated") ∧
    (∀ r ∈ (trackMany ⟨[], 0⟩ "/shen" [callA, callB]).1, r.id = 0) ∧
    (((trackMany ⟨[], 0⟩ "/shen" [callA, callB]).2.events.filter
        (keyMatch "/shen" (.str "1.2.3.4"))).length = 1) ∧
    ((trackMany ⟨[], 0⟩ "/shen" [callA, callB]).2.events.length = 0 + 1) ∧
    ([callA, callB].getLast?.elim True fun c =>
      ∃ e ∈ (trackMany ⟨[], 0⟩ "/shen" [callA, callB]).2.events,
        keyMatch "/shen" (.str "1.2.3.4") e = true ∧ e.id = 0 ∧ e.ref = c.ref ∧
        e.user_agent = some (clientUa c.req) ∧
        e.payload = trackPayload c.req c.vi "/shen" c.ref ∧
        e.created_at = c.now) :=
  upsert_unique_per_key ⟨[], 0⟩ "/shen" [callA, callB] (.str "1.2.3.4")
    (by decide) (by decide) (by decide) (by decide)

/-- C2 counterexample: the webhook extractor (`client_ip` in `event.py`)
propagates the raw first X-Forwarded-For token without validation, and
`POST /hook` stores it: the malformed string "garbage" ends up in the
record's `ip` field. -/
theorem event_extractor_stores_garbage :
    eventClientIp ⟨some "garbage", none, none, none⟩ = some "garbage" ∧
    validIp "garbage" = false ∧
    ((hook ⟨[], 0⟩ ⟨some "garbage", none, none, none⟩ "log" none [] 0).2.events.map (·.ip))
      = [some "garbage"] := by decide

/-- C2 (amended): the visitor-side extractor (`client_ip` in `public.py`)
only ever resolves to a syntactically valid IP or to `none`; a malformed
header string is never returned. -/
theorem public_client_ip_valid_or_none :
    ∀ req : Request, (clientIp req).all validIp = true := by
  intro req
  simp only [clientIp]
  exact ite_validIp_all _ _

/-- C4: for every filter combination, the total reported by `GET /events`
equals the number of records returned by `GET /events/export` under the same
filter. -/
theorem count_eq_export_length (st : EventState) (f : EventFilter)
    (offset limit : Nat) :
    (listEventsCore st f offset limit).total = (exportEventsCore st f).length := by
  simp [listEventsCore, exportEventsCore, length_sortDesc]

/-- C3: bulk delete with `confirm=false` returns 400 and leaves the store
unchanged; with `confirm=true` and no filters it empties the store, so every
subsequent count is 0; a confirmed delete matching zero records reports
success with deleted count 0. -/
theorem bulk_delete_contract (est : EventState) (pst : PublicState)
    (f : EventFilter) (pf : PublicDeleteFilter)
    (hz : ∀ e ∈ est.events, matchesEventFilter f e = false)
    (hzp : ∀ e ∈ pst.events, matchesPublicDeleteFilter pf e = false) :
    (∀ g, deleteEventsCore est g false = (.error 400, est)) ∧
    (∀ g, deletePublicCore pst g false = (.error 400, pst)) ∧
    (∀ g o l, (listEventsCore (deleteEventsCore est ⟨none, none, none, none, none⟩ true).2 g o l).total = 0) ∧
    (∀ pg pq o lim, (listPublicCore (deletePublicCore pst ⟨none, none, none, none⟩ true).2 pg pq o lim).total = 0) ∧
    (deleteEventsCore est f true).1 = .ok ⟨true, 0⟩ ∧
    (deletePublicCore pst pf true).1 = .ok ⟨true, 0⟩ := by
  refine ⟨?_, ?_, ?_, ?_, ?_, ?_⟩
  · intro g
    simp [deleteEventsCore]
  · intro g
    simp [deletePublicCore]
  · intro g o l
    simp [deleteEventsCore, eventNoConditions, optStrFalsy, listEventsCore]
  · intro pg pq o lim
    simp only [deletePublicCore, publicNoConditions, optStrFalsy, Option.isNone]
    simp only [listPublicCore]
    split <;> simp
  · by_cases hnc : eventNoConditions f = true
    · have hnil : est.events = [] := by
        rcases hev : est.events with _ | ⟨e, rest⟩
        · rfl
        · have h1 := hz e (by rw [hev]; simp)
          have h2 := eventNoConditions_matches hnc e
          rw [h1] at h2
          exact absurd h2 (by simp)
      simp [deleteEventsCore, hnc, hnil]
    · have hcount : est.events.countP (matchesEventFilter f ·) = 0 :=
        List.countP_eq_zero.mpr fun e he => by simp [hz e he]
      simp [deleteEventsCore, hnc, hcount]
  · by_cases hnc : publicNoConditions pf = true
    · have hnil : pst.events = [] := by
        rcases hev : pst.events with _ | ⟨e, rest⟩
        · rfl
        · have h1 := hzp e (by rw [hev]; simp)
          have h2 := publicNoConditions_matches hnc e
          rw [h1] at h2
          exact absurd h2 (by simp)
      simp [deletePublicCore, hnc, hnil]
    · have hcount : pst.events.countP (matchesPublicDeleteFilter pf ·) = 0 :=
        List.countP_eq_zero.mpr fun e he => by simp [hzp e he]
      simp [deletePublicCore, hnc, hcount]

/-- Witness for `bulk_delete_contract` on concrete stores and
non-matching filters. -/
theorem bulk_delete_contract_witness :
    (∀ g, deleteEventsCore estA g false = (.error 400, estA)) ∧
    (∀ g, deletePublicCore pstA g false = (.error 400, pstA)) ∧
    (∀ g o l, (listEventsCore (deleteEventsCore estA ⟨none, none, none, none, none⟩ true).2 g o l).total = 0) ∧
    (∀ pg pq o lim, (listPublicCore (deletePublicCore pstA ⟨none, none, none, none⟩ true).2 pg pq o lim).total = 0) ∧
    (deleteEventsCore estA ⟨some "analytics", none, none, none, none⟩ true).1 = .ok ⟨true, 0⟩ ∧
    (deletePublicCore pstA ⟨some "/zzz", none, none, none⟩ true).1 = .ok ⟨true, 0⟩ :=
  bulk_delete_contract estA pstA ⟨some "analytics", none, none, none, none⟩
    ⟨some "/zzz", none, none, none⟩ (by decide) (by decide)

/-- C5: the first two 50-row pages of `GET /events` partition the first 100
rows of `GET /events/export` under the same filter: no id overlap, and their
concatenation is exactly the export prefix (stable sort). -/
theorem pagination_partition (st : EventState) (f : EventFilter)
    (hids : (st.events.map (·.id)).Nodup) :
    (listEventsCore st f 0 50).items ++ (listEventsCore st f 50 50).items
      = (exportEventsCore st f).take 100 ∧
    ∀ i ∈ (listEventsCore st f 0 50).items.map (·.id),
      i ∉ (listEventsCore st f 50 50).items.map (·.id) := by
  constructor
  · simp only [listEventsCore, exportEventsCore, List.drop_zero]
    rw [show (100 : Nat) = 50 + 50 from rfl, List.take_add]
  · have hsub : List.Sublist ((st.events.filter (matchesEventFilter f)).map (·.id))
        (st.events.map (·.id)) := (List.filter_sublist _).map _
    have hnf : ((st.events.filter (matchesEventFilter f)).map (·.id)).Nodup :=
      hids.sublist hsub
    have hperm := (perm_sortDesc (·.created_at) (st.events.filter (matchesEventFilter f))).map (·.id)
    have hns : ((sortDesc (·.created_at) (st.events.filter (matchesEventFilter f))).map (·.id)).Nodup :=
      hperm.nodup_iff.mpr hnf
    have hdisj := List.disjoint_take_drop (m := 50) (n := 50) hns (le_refl 50)
    intro i hi1 hi2
    simp only [listEventsCore, List.drop_zero] at hi1 hi2
    rw [List.map_take] at hi1
    rw [List.map_take, List.map_drop] at hi2
    exact hdisj hi1 (List.mem_of_mem_take hi2)

/-- Witness for `pagination_partition` on a concrete store. -/
theorem pagination_partition_witness :
    (listEventsCore estA ⟨none, none, none, none, none⟩ 0 50).items ++
        (listEventsCore estA ⟨none, none, none, none, none⟩ 50 50).items
      = (exportEventsCore estA ⟨none, none, none, none, none⟩).take 100 ∧
    ∀ i ∈ (listEventsCore estA ⟨none, none, none, none, none⟩ 0 50).items.map (·.id),
      i ∉ (listEventsCore estA ⟨none, none, none, none, none⟩ 50 50).items.map (·.id) :=
  pagination_partition estA ⟨none, none, none, none, none⟩ (by decide)

/-- C6 counterexample: `POST /hook` stores the User-Agent exactly as
received: an absent header is stored as null (not the empty string) and a
padded header is stored untrimmed. -/
theorem hook_user_agent_raw :
    ((hook ⟨[], 0⟩ ⟨none, none, none, some "7.7.7.7"⟩ "log" none [] 3).2.events.map (·.user_agent))
      = [none] ∧
    ((hook ⟨[], 0⟩ ⟨none, none, some " UA ", some "7.7.7.7"⟩ "log" none [] 3).2.events.map (·.user_agent))
      = [some " UA "] := by decide

/-- C6 (amended): visitor records written by `POST /public` always carry a
string `user_agent` — the header trimmed, `""` when absent — while webhook
records store the raw optional header. -/
theorem user_agent_handling (est : EventState) (pst : PublicState)
    (req : Request) (path : String) (vi : JDict) (ref : Option String)
    (now : Int) (etype : String) (uid : Option String) (data : JDict) (t : Int) :
    (∀ e ∈ (publicTrack pst req path vi ref now).2.events,
        e ∈ pst.events ∨ e.user_agent = some (clientUa req)) ∧
    (req.userAgent = none → clientUa req = "") ∧
    (∀ s, req.userAgent = some s → clientUa req = String.mk (pyStrip s.toList)) ∧
    (∀ e ∈ (hook est req etype uid data t).2.events,
        e ∈ est.events ∨ e.user_agent = req.userAgent) := by
  refine ⟨?_, ?_, ?_, ?_⟩
  · intro e he
    cases hfind : findOnePublic pst.events path (finalIpOf req vi) with
    | none =>
      rw [publicTrack_creates pst req path vi ref now hfind] at he
      simp only [List.mem_append, List.mem_singleton] at he
      rcases he with h1 | h2
      · exact Or.inl h1
      · exact Or.inr (by rw [h2]; rfl)
    | some ex =>
      rw [publicTrack_updates pst req path vi ref now ex hfind] at he
      simp only [List.mem_map] at he
      obtain ⟨x, hx, hfx⟩ := he
      by_cases hxid : x.id = ex.id
      · rw [if_pos hxid] at hfx
        exact Or.inr (by rw [← hfx]; rfl)
      · rw [if_neg hxid] at hfx
        exact Or.inl (hfx ▸ hx)
  · intro h
    simp [clientUa, normalizeHeaderValue, h]
  · intro s h
    simp [clientUa, normalizeHeaderValue, h]
  · intro e he
    simp only [hook, List.mem_append, List.mem_singleton] at he
    rcases he with h1 | h2
    · exact Or.inl h1
    · exact Or.inr (by rw [h2])

/-- Witness for `user_agent_handling` at a concrete request and stores. -/
theorem user_agent_handling_witness :
    (∀ e ∈ (publicTrack pstA reqA "/shen" [] none 5).2.events,
        e ∈ pstA.events ∨ e.user_agent = some (clientUa reqA)) ∧
    (reqA.userAgent = none → clientUa reqA = "") ∧
    (∀ s, reqA.userAgent = some s → clientUa reqA = String.mk (pyStrip s.toList)) ∧
    (∀ e ∈ (hook estA reqA "log" none [] 3).2.events,
        e ∈ estA.events ∨ e.user_agent = reqA.userAgent) :=
  user_agent_handling estA pstA reqA "/shen" [] none 5 "log" none [] 3

/-- C7 counterexample: a `visitor_info` that *includes* an `ip` field with an
empty (falsy) value is ignored — the server-derived IP 9.9.9.9 is used as the
key and stored, and the response attributes the IP to the server. -/
theorem visitor_empty_ip_overridden :
    ((publicTrack ⟨[], 0⟩ req9 "/p" [("ip", .str "")] none 7).2.events.map (·.ip))
      = [.str "9.9.9.9"] ∧
    (publicTrack ⟨[], 0⟩ req9 "/p" [("ip", .str "")] none 7).1.ip_source = "server" ∧
    Json.str "" ≠ Json.str "9.9.9.9" := by decide

/-- C7 (amended): a *truthy* caller-supplied `visitor_info["ip"]` takes
precedence over the server-derived IP for both the upsert key and the stored
record; otherwise — including a present-but-falsy `ip` field — the
server-derived IP is used for both. -/
theorem visitor_ip_precedence (req : Request) (vi : JDict) :
    (vi.truthyGet "ip" = true → finalIpOf req vi = (vi.get? "ip").getD .null) ∧
    (vi.truthyGet "ip" = false → finalIpOf req vi = .ofOptStr (clientIp req)) ∧
    (∀ st path ref now, ∃ e ∈ (publicTrack st req path vi ref now).2.events,
        e.id = (publicTrack st req path vi ref now).1.id ∧
        e.ip = finalIpOf req vi) := by
  refine ⟨?_, ?_, ?_⟩
  · intro h
    rw [finalIpOf_eq, if_pos h]
  · intro h
    rw [finalIpOf_eq, if_neg (by simp [h])]
  · intro st path ref now
    cases hfind : findOnePublic st.events path (finalIpOf req vi) with
    | none =>
      rw [publicTrack_creates st req path vi ref now hfind]
      exact ⟨newPublicDoc st req path vi ref now, by simp, rfl, rfl⟩
    | some ex =>
      rw [publicTrack_updates st req path vi ref now ex hfind]
      refine ⟨updatedPublicDoc ex req vi path ref now, ?_, rfl, ?_⟩
      · have hmem : ex ∈ st.events := List.mem_of_find?_eq_some hfind
        have hmm := List.mem_map_of_mem
          (fun x => if x.id = ex.id then updatedPublicDoc ex req vi path ref now else x) hmem
        simpa using hmm
      · have hkm := List.find?_some hfind
        exact (keyMatch_iff.mp hkm).2

/-- Witness for `visitor_ip_precedence`: a truthy caller IP wins. -/
theorem visitor_ip_precedence_witness :
    (JDict.truthyGet [("ip", .str "1.1.1.1")] "ip" = true →
      finalIpOf req9 [("ip", .str "1.1.1.1")] = (JDict.get? [("ip", .str "1.1.1.1")] "ip").getD .null) ∧
    (JDict.truthyGet [("ip", .str "1.1.1.1")] "ip" = false →
      finalIpOf req9 [("ip", .str "1.1.1.1")] = .ofOptStr (clientIp req9)) ∧
    (∀ st path ref now, ∃ e ∈ (publicTrack st req9 path [("ip", .str "1.1.1.1")] ref now).2.events,
        e.id = (publicTrack st req9 path [("ip", .str "1.1.1.1")] ref now).1.id ∧
        e.ip = finalIpOf req9 [("ip", .str "1.1.1.1")]) :=
  visitor_ip_precedence req9 [("ip", .str "1.1.1.1")]

/-- C8 counterexample: the `/events` list endpoint does not clamp an
out-of-range limit into [1, 200] — FastAPI rejects the request with a 422
validation error instead. -/
theorem event_limit_rejected_not_clamped :
    validateEventLimitParam (some 500) = .error "422: limit must be <= 200" ∧
    validateEventLimitParam (some 0) = .error "422: limit must be >= 1" := by decide

/-- C8 (amended): `offset` defaults to 0 and must be ≥ 0; `limit` defaults
to 50 on both list endpoints; `/events` validates the supplied limit into
[1, 200] (rejecting out-of-range values), while `/public` clamps numeric
values into [1, 200], falls back to 50 on unparsable values, and honours the
`"all"` sentinel by returning every matching record with the true total
reported as the effective limit. -/
theorem pagination_params :
    (validateOffsetParam none = .ok 0) ∧
    (∀ o : Int, 0 ≤ o → validateOffsetParam (some o) = .ok o.toNat) ∧
    (∀ o : Int, o < 0 → validateOffsetParam (some o) = .error "422: offset must be >= 0") ∧
    (validateEventLimitParam none = .ok 50) ∧
    (∀ l : Int, 1 ≤ l → l ≤ 200 → validateEventLimitParam (some l) = .ok l.toNat) ∧
    (∀ l : Int, l < 1 ∨ 200 < l → ∃ m, validateEventLimitParam (some l) = .error m) ∧
    (∀ (st : PublicState) (page q : Option String) (off : Nat),
      (listPublicCore st page q off none).limit = 50) ∧
    (∀ (st : PublicState) (page q : Option String) (off : Nat) (s : String) (n : Int),
      String.mk (lowerList s.toList) ≠ "all" → pyToInt s = some n →
      (listPublicCore st page q off (some s)).limit = (max 1 (min 200 n)).toNat) ∧
    (∀ (st : PublicState) (page q : Option String) (off : Nat) (s : String),
      String.mk (lowerList s.toList) ≠ "all" → pyToInt s = none →
      (listPublicCore st page q off (some s)).limit = 50) ∧
    (∀ (st : PublicState) (page q : Option String) (off : Nat) (s : String),
      String.mk (lowerList s.toList) = "all" →
      (listPublicCore st page q off (some s)).limit = (listPublicCore st page q off (some s)).total ∧
      (listPublicCore st page q off (some s)).items.length = (listPublicCore st page q off (some s)).total ∧
      (listPublicCore st page q off (some s)).offset = 0) := by
  refine ⟨rfl, ?_, ?_, rfl, ?_, ?_, ?_, ?_, ?_, ?_⟩
  · intro o h
    simp [validateOffsetParam, not_lt.mpr h]
  · intro o h
    simp [validateOffsetParam, h]
  · intro l h1 h2
    simp [validateEventLimitParam, not_lt.mpr h1, not_lt.mpr h2]
  · intro l h
    rcases h with h | h
    · exact ⟨"422: limit must be >= 1", by simp [validateEventLimitParam, h]⟩
    · refine ⟨"422: limit must be <= 200", ?_⟩
      have h1 : ¬ l < 1 := by omega
      simp [validateEventLimitParam, h1, h]
  · intro st page q off
    rfl
  · intro st page q off s n hs hn
    simp only [listPublicCore, Option.getD_some]
    rw [if_neg (by simpa using hs), hn]
  · intro st page q off s hs hn
    simp only [listPublicCore, Option.getD_some]
    rw [if_neg (by simpa using hs), hn]
  · intro st page q off s hs
    simp only [listPublicCore, Option.getD_some]
    rw [if_pos (by simpa using hs)]
    exact ⟨rfl, by simp [length_sortDesc], rfl⟩

/-- Witness for `pagination_params`: limit 500 clamped to 200 on `/public`,
`"ALL"` sentinel reporting the total, limit 7 accepted on `/events`. -/
theorem pagination_params_witness :
    (listPublicCore ⟨[], 0⟩ none none 0 (some "500")).limit = (max 1 (min 200 (500 : Int))).toNat ∧
    (listPublicCore pstA none none 0 (some "ALL")).limit = (listPublicCore pstA none none 0 (some "ALL")).total ∧
    validateEventLimitParam (some 7) = .ok (7 : Int).toNat :=
  ⟨pagination_params.2.2.2.2.2.2.2.1 ⟨[], 0⟩ none none 0 "500" 500 (by decide) (by decide),
   (pagination_params.2.2.2.2.2.2.2.2.2 pstA none none 0 "ALL" (by decide)).1,
   pagination_params.2.2.2.2.1 7 (by decide) (by decide)⟩

/-- C9 counterexample: the visitor list/export `page` parameter is a
case-insensitive substring match, not an equality condition — the record with
page `/shenanigans` matches the filter `/shen` without being equal to it. -/
theorem page_filter_not_equality :
    matchesPublicFilter (some "/shen") none ⟨0, "/shenanigans", none, .null, none, .objNil, 0⟩ = true ∧
    ("/shenanigans" : String) ≠ "/shen" := by decide

/-- C9 (amended): `event_type`/`user_id` (webhook endpoints) and `page`/`ip`
(visitor bulk delete) map 1:1 to equality conditions when non-empty, but the
`page` parameter of the visitor list/export endpoints is a case-insensitive
substring condition. -/
theorem exact_match_filters (t u p i pv : String) (e : WebhookEvent)
    (pe : PublicEvent) (ht : t ≠ "") (hu : u ≠ "") (hp : p ≠ "")
    (hi : i ≠ "") (hpv : pv ≠ "") :
    matchesEventFilter ⟨some t, none, none, none, none⟩ e = decide (e.event_type = t) ∧
    matchesEventFilter ⟨none, some u, none, none, none⟩ e = decide (e.user_id = some u) ∧
    matchesPublicDeleteFilter ⟨some p, none, none, none⟩ pe = decide (pe.page = p) ∧
    matchesPublicDeleteFilter ⟨none, some i, none, none⟩ pe = decide (pe.ip = Json.str i) ∧
    matchesPublicFilter (some pv) none pe = containsCI pe.page pv := by
  refine ⟨?_, ?_, ?_, ?_, ?_⟩ <;>
    simp [matchesEventFilter, matchesPublicDeleteFilter, matchesPublicFilter,
      ht, hu, hp, hi, hpv]

/-- Witness for `exact_match_filters` at concrete values. -/
theorem exact_match_filters_witness :
    matchesEventFilter ⟨some "log", none, none, none, none⟩
        ⟨0, "log", some "u1", some "1.2.3.4", some "UA", .objNil, 10⟩
      = decide (("log" : String) = "log") ∧
    matchesEventFilter ⟨none, some "u1", none, none, none⟩
        ⟨0, "log", some "u1", some "1.2.3.4", some "UA", .objNil, 10⟩
      = decide ((some "u1" : Option String) = some "u1") ∧
    matchesPublicDeleteFilter ⟨some "/a", none, none, none⟩
        ⟨0, "/a", none, .null, some "", .objNil, 10⟩
      = decide (("/a" : String) = "/a") ∧
    matchesPublicDeleteFilter ⟨none, some "2.2.2.2", none, none⟩
        ⟨0, "/a", none, .null, some "", .objNil, 10⟩
      = decide (Json.null = Json.str "2.2.2.2") ∧
    matchesPublicFilter (some "/a") none ⟨0, "/a", none, .null, some "", .objNil, 10⟩
      = containsCI "/a" "/a" :=
  exact_match_filters "log" "u1" "/a" "2.2.2.2" "/a"
    ⟨0, "log", some "u1", some "1.2.3.4", some "UA", .objNil, 10⟩
    ⟨0, "/a", none, .null, some "", .objNil, 10⟩
    (by decide) (by decide) (by decide) (by decide) (by decide)

theorem oget_ofDict (d : JDict) (k : String) :
    (Json.ofDict d).oget k = d.get? k := by
  induction d with
  | nil => rfl
  | cons p rest ih =>
    by_cases h : p.1 = k
    · simp [Json.ofDict, Json.oget, JDict.get?, h]
    · simp [Json.ofDict, Json.oget, JDict.get?, h, ih]

theorem set_ne_nil (d : JDict) (k : String) (v : Json) : d.set k v ≠ [] := by
  cases d with
  | nil => simp [JDict.set]
  | cons p rest =>
    by_cases h : p.1 = k <;> simp [JDict.set, h]

theorem payloadDataOf_get_meta (req : Request) (vi : JDict)
    (hmeta : vi.get? "meta" = none) :
    (payloadDataOf req vi).get? "meta" = none := by
  unfold payloadDataOf
  rw [JDict.get?_set_ne _ _ _ _ (by decide)]
  split
  · exact hmeta
  · rw [JDict.get?_set_ne _ _ _ _ (by decide)]
    exact hmeta

theorem trackPayload_oget_data (req : Request) (vi : JDict) (path : String)
    (ref : Option String) :
    (trackPayload req vi path ref).oget "data" = some (.ofDict (payloadDataOf req vi)) := by
  simp [trackPayload, Json.oget]

/-- The record a `POST /public` call reports on: it exists, and every record
in the new store carrying the reported id has the freshly written payload. -/
theorem publicTrack_written_record (st : PublicState) (req : Request)
    (path : String) (vi : JDict) (ref : Option String) (now : Int)
    (hfresh : ∀ x ∈ st.events, x.id < st.nextId) :
    (∃ e ∈ (publicTrack st req path vi ref now).2.events,
        e.id = (publicTrack st req path vi ref now).1.id) ∧
    (∀ e ∈ (publicTrack st req path vi ref now).2.events,
        e.id = (publicTrack st req path vi ref now).1.id →
        e.payload = trackPayload req vi path ref) := by
  cases hfind : findOnePublic st.events path (finalIpOf req vi) with
  | none =>
    rw [publicTrack_creates st req path vi ref now hfind]
    refine ⟨⟨newPublicDoc st req path vi ref now, by simp, rfl⟩, ?_⟩
    intro e he hid
    simp only [List.mem_append, List.mem_singleton] at he
    rcases he with h1 | h2
    · exact absurd hid (Nat.ne_of_lt (hfresh e h1))
    · rw [h2]
      rfl
  | some ex =>
    rw [publicTrack_updates st req path vi ref now ex hfind]
    constructor
    · have hmem : ex ∈ st.events := List.mem_of_find?_eq_some hfind
      have hmm := List.mem_map_of_mem
        (fun x => if x.id = ex.id then updatedPublicDoc ex req vi path ref now else x) hmem
      refine ⟨updatedPublicDoc ex req vi path ref now, by simpa using hmm, rfl⟩
    · intro e he hid
      simp only [List.mem_map] at he
      obtain ⟨x, hx, hfx⟩ := he
      by_cases hxid : x.id = ex.id
      · rw [if_pos hxid] at hfx
        rw [← hfx]
        rfl
      · rw [if_neg hxid] at hfx
        rw [← hfx] at hid
        exact absurd hid hxid

/-- C10: for a visitor record written by `POST /public` whose metadata has no
`meta` key, the export shaping (`payload["data"]["meta"]`) yields the empty
object while the list shaping (`payload["data"]`) yields the full visitor
metadata — the two endpoints disagree on `visitor_info` for the same
record. -/
theorem list_export_visitor_info_disagree (st : PublicState) (req : Request)
    (path : String) (vi : JDict) (ref : Option String) (now : Int)
    (hmeta : vi.get? "meta" = none)
    (hfresh : ∀ x ∈ st.events, x.id < st.nextId) :
    (∃ e ∈ (publicTrack st req path vi ref now).2.events,
        e.id = (publicTrack st req path vi ref now).1.id) ∧
    (∀ e ∈ (publicTrack st req path vi ref now).2.events,
        e.id = (publicTrack st req path vi ref now).1.id →
        (publicExportItem e).visitor_info = .objNil ∧
        (publicListItem e).visitor_info = .ofDict (payloadDataOf req vi) ∧
        (publicListItem e).visitor_info ≠ (publicExportItem e).visitor_info) := by
  obtain ⟨hex, hall⟩ := publicTrack_written_record st req path vi ref now hfresh
  refine ⟨hex, ?_⟩
  intro e he hid
  have hpl := hall e he hid
  have hexp : (publicExportItem e).visitor_info = .objNil := by
    simp only [publicExportItem, exportVisitorInfo, hpl, trackPayload_oget_data,
      Option.getD_some, oget_ofDict, payloadDataOf_get_meta req vi hmeta,
      Option.getD_none]
  have hlst : (publicListItem e).visitor_info = .ofDict (payloadDataOf req vi) := by
    simp only [publicListItem, listVisitorInfo, hpl, trackPayload_oget_data,
      Option.getD_some]
  refine ⟨hexp, hlst, ?_⟩
  rw [hexp, hlst]
  unfold payloadDataOf
  rcases hset : (if vi.truthyGet "ip" then vi
      else vi.set "ip" (.ofOptStr (clientIp req))).set "user_agent" (.str (clientUa req)) with _ | ⟨pr, rest⟩
  · exact absurd hset (set_ne_nil _ _ _)
  · simp [Json.ofDict]

/-- Witness for `list_export_visitor_info_disagree` on a concrete tracked
visitor. -/
theorem list_export_visitor_info_disagree_witness :
    (∃ e ∈ (publicTrack pstA reqA "/shen" [("city", .str "Lahore")] none 5).2.events,
        e.id = (publicTrack pstA reqA "/shen" [("city", .str "Lahore")] none 5).1.id) ∧
    (∀ e ∈ (publicTrack pstA reqA "/shen" [("city", .str "Lahore")] none 5).2.events,
        e.id = (publicTrack pstA reqA "/shen" [("city", .str "Lahore")] none 5).1.id →
        (publicExportItem e).visitor_info = .objNil ∧
        (publicListItem e).visitor_info = .ofDict (payloadDataOf reqA [("city", .str "Lahore")]) ∧
        (publicListItem e).visitor_info ≠ (publicExportItem e).visitor_info) :=
  list_export_visitor_info_disagree pstA reqA "/shen" [("city", .str "Lahore")]
    none 5 (by decide) (by decide)


end LogsHook

